import Mathlib

/-!
Shallow embedding of the ClueCortex crossword solver
(src/Final/ClueCortex.py) together with proofs about its candidate
filter, ranking pipeline and feedback store.

The source file contains two complete copies of the solver engine: the
original `CrosswordSolver` / `ModernCrosswordApp` classes (lines 38-564)
and a second variant appended under the marker `=== test cluecortex.py ===`
(lines 566-965).  The pattern compiler, the candidate filter and the
feedback persistence are identical in both copies and are embedded once;
the ranking orchestration (`rank_by_clue`) and the GUI correction
handlers differ between the copies and are embedded separately in the
namespaces `V1` (first copy) and `V2` (second copy).

External collaborators (the NLTK tokenizer `word_tokenize`, the WordNet
lemmatizer and `wordnet.synsets`) are modelled as parameters collected in
the `NLP` structure: every claim is settled for an arbitrary tokenizer /
lemmatizer / synset table, concrete instances are supplied in witnesses
and counterexamples.

Python strings are modelled by Lean `String`; because the code only ever
upper/lower-cases ASCII words and patterns, `str.upper`, `str.lower` and
`str.strip` are embedded as character-wise maps (`strUpper`, `strLower`,
`pyStrip`).  Python float scores are modelled by exact rationals: every
weight in the scorer (0.5, 0.7, 0.3, 1.0) and every score displayed by
the claims is an exact decimal, and none of the proved properties
depends on binary float rounding.
-/

namespace ClueCortex

/-- Character-wise embedding of Python `str.upper()` (ASCII case map). -/
def strUpper (s : String) : String := ⟨s.toList.map Char.toUpper⟩

/-- Character-wise embedding of Python `str.lower()` (ASCII case map). -/
def strLower (s : String) : String := ⟨s.toList.map Char.toLower⟩

/-- Embedding of Python `str.strip()`: drop leading and trailing whitespace. -/
def pyStrip (s : String) : String :=
  ⟨((s.toList.dropWhile Char.isWhitespace).reverse.dropWhile Char.isWhitespace).reverse⟩

/-- Membership in the regex character class `[A-Z]`. -/
def isUpperAZ (c : Char) : Bool := decide ('A' ≤ c) && decide (c ≤ 'Z')

/-- Shape of every regex built by `CrosswordSolver.pattern_to_regex`:
either the default matcher `^[A-Z]{2,15}$`, or `^...$` where each
position is a literal letter (`some c`) or the class `[A-Z]` (`none`). -/
inductive Rx where
  | anyWord : Rx
  | chars : List (Option Char) → Rx
deriving DecidableEq

/-- Embedding of `CrosswordSolver.pattern_to_regex` (identical in both
copies, lines 97-104 and 623-627): a blank pattern (empty or
whitespace-only, i.e. `not pattern or pattern.strip() == ""`) yields the
default matcher `^[A-Z]{2,15}$`; otherwise each alphabetic pattern
character becomes the literal `c.upper()` and every other character
becomes `[A-Z]`. -/
def pattern_to_regex (pattern : String) : Rx :=
  if pattern.toList.all Char.isWhitespace then .anyWord
  else .chars (pattern.toList.map (fun c => if c.isAlpha then some c.toUpper else none))

/-- Matching of one regex position against one word character. -/
def posMatch (pc : Option Char) (wc : Char) : Bool :=
  match pc with
  | some c => wc == c
  | none => isUpperAZ wc

/-- Embedding of `re.match(regex, word)` for the regexes produced by
`pattern_to_regex`: both forms are anchored with `^` and `$`, so
`anyWord` accepts words of length 2-15 made of `[A-Z]` characters and
`chars ps` accepts exactly the words of length `ps.length` whose
characters match position-wise.  (Lexicon words are produced by
`line.strip().upper()` and therefore contain no newline, so `$` is exact
end-of-string here.) -/
def reMatch (r : Rx) (word : String) : Bool :=
  match r with
  | .anyWord =>
      decide (2 ≤ word.length) && decide (word.length ≤ 15) && word.toList.all isUpperAZ
  | .chars ps =>
      word.length == ps.length &&
        (List.zip ps word.toList).all (fun pw => posMatch pw.1 pw.2)

/-- Composition of the pattern compiler with the regex matcher, the form
in which the code always uses it (`re.match(self.pattern_to_regex(p), w)`). -/
def patternMatches (pattern word : String) : Bool :=
  reMatch (pattern_to_regex pattern) word

/-- Embedding of `est_len = max(2, min(15, int(len(clue_tokens) * 1.5)))`
(lines 114 and 635).  Python `int()` truncates, and `n * 1.5` is the
exact value `3*n/2` for every list length representable as a float, so
the estimate is `3*n/2` in floor division, clamped. -/
def estLen (tokenCount : Nat) : Nat := max 2 (min 15 (3 * tokenCount / 2))

/-- Branch condition of the clue-length narrowing in `find_matches`
(lines 111 and 633): `not pattern or all(c == '?' for c in pattern)`. -/
def allWildcard (pattern : String) : Bool :=
  pattern.toList.isEmpty || pattern.toList.all (fun c => c == '?')

/-- Length narrowing predicate `abs(len(w) - est_len) <= 3` (lines 115 and 636). -/
def lenNear (w : String) (est : Nat) : Bool :=
  decide (Int.natAbs ((w.length : Int) - (est : Int)) ≤ 3)

/-- Monadic regex filtering of the word list inside the `try:` block of
`find_matches`; the matching primitive is a parameter so that a failure
of `re.match` can be represented (`Except.error`). -/
def matchAllE (matchE : String → String → Except String Bool) (pattern : String) :
    List String → Except String (List String)
  | [] => Except.ok []
  | w :: ws => do
    let b ← matchE pattern w
    let rest ← matchAllE matchE pattern ws
    pure (if b then w :: rest else rest)

/-- Body of the `try:` block of `CrosswordSolver.find_matches` (identical
in both copies, lines 106-117 and 629-637): filter the word list by the
compiled pattern, then, when the pattern is empty or all-wildcard,
narrow by the clue-length estimate.  The matcher and the tokenizer
(`word_tokenize`, an external NLTK collaborator) are fallible
parameters. -/
def find_matchesTry (wordList : List String)
    (matchE : String → String → Except String Bool)
    (tokenizeE : String → Except String (List String))
    (pattern clue : String) : Except String (List String) := do
  let ms ← matchAllE matchE pattern wordList
  if allWildcard pattern then
    let clueTokens ← tokenizeE (strLower clue)
    let estL := estLen clueTokens.length
    pure (ms.filter (fun w => lenNear w estL))
  else
    pure ms

/-- Embedding of `CrosswordSolver.find_matches` including its
`except:` handler (lines 118-120 and 638-640): any internal failure
falls back to `self.word_list[:100]`. -/
def find_matchesE (wordList : List String)
    (matchE : String → String → Except String Bool)
    (tokenizeE : String → Except String (List String))
    (pattern clue : String) : List String :=
  match find_matchesTry wordList matchE tokenizeE pattern clue with
  | .ok ms => ms
  | .error _ => wordList.take 100

/-- `find_matches` in the normal run, where `pattern_to_regex`,
`re.match` and the tokenizer all succeed (the only genuinely fallible
primitive is the external tokenizer). -/
def find_matches (wordList : List String) (tokenize : String → List String)
    (pattern clue : String) : List String :=
  find_matchesE wordList (fun p w => .ok (patternMatches p w))
    (fun s => .ok (tokenize s)) pattern clue

/-- Splitting a character list on a separator, with Python semantics:
`"a.b".split('.') = ["a","b"]`, `"".split('.') = [""]`. -/
def splitChar (sep : Char) : List Char → List (List Char)
  | [] => [[]]
  | c :: rest =>
    let r := splitChar sep rest
    if c = sep then [] :: r
    else
      match r with
      | [] => [[c]]
      | g :: gs => (c :: g) :: gs

/-- Embedding of Python `str.split(sep)` for a one-character separator
(used for `syn.name().split('.')`). -/
def pySplit (sep : Char) (s : String) : List String :=
  (splitChar sep s.toList).map (fun cs => ⟨cs⟩)

/-- Model of one WordNet synset as used by the code: its gloss
(`syn.definition()`), its identifier (`syn.name()`, e.g. `"cat.n.01"`),
and the identifiers of its hypernym synsets (`h.name()` for
`h in syn.hypernyms()`), which are all the code reads from hypernyms. -/
structure Synset where
  definition : String
  name : String
  hypernyms : List String
deriving DecidableEq

/-- The external NLP collaborators of the solver: `word_tokenize`,
`WordNetLemmatizer().lemmatize` and `wordnet.synsets`. -/
structure NLP where
  tokenize : String → List String
  lemmatize : String → String
  synsets : String → List Synset

/-- One ranked candidate `(word, score, definition)`. -/
abbrev RC := String × ℚ × String

/-- Score projection of a ranked candidate. -/
def rcScore (r : RC) : ℚ := r.2.1

/-- Size of the intersection of two Python sets of strings given as
element lists: the number of distinct elements of `a` that occur in `b`
(`len(set(a) & set(b))`). -/
def interCard (a b : List String) : Nat :=
  (a.dedup.filter (fun x => decide (x ∈ b))).length

/-- Lemmatization of a token list as done throughout `_wordnet_ranking`:
`self.lemmatizer.lemmatize(w.lower())` for each token. -/
def lemmaTokens (nlp : NLP) (ws : List String) : List String :=
  ws.map (fun w => nlp.lemmatize (strLower w))

/-- `clue_words`: lemmatized tokens of the lower-cased clue (used as a set). -/
def clueWords (nlp : NLP) (clue : String) : List String :=
  lemmaTokens nlp (nlp.tokenize (strLower clue))

/-- Lemmatized components of a synset name split on `'.'`
(`syn.name().split('.')`). -/
def nameWords (nlp : NLP) (n : String) : List String :=
  lemmaTokens nlp (pySplit '.' n)

/-- Lemmatized tokens of a definition text (`word_tokenize(best_def)`). -/
def defWords (nlp : NLP) (d : String) : List String :=
  lemmaTokens nlp (nlp.tokenize d)

/-- Per-synset contribution to the score in `_wordnet_ranking`:
`0.7` per clue lemma shared with the synset name components plus
`0.3` per clue lemma shared with each hypernym name's components. -/
def synScore (nlp : NLP) (cw : List String) (s : Synset) : ℚ :=
  (interCard cw (nameWords nlp s.name) : ℚ) * (7/10) +
    (s.hypernyms.map (fun h => (interCard cw (nameWords nlp h) : ℚ) * (3/10))).sum

/-- Scoring of one candidate word in `_wordnet_ranking` (identical in
both copies, lines 156-177 and 669-701): no synsets gives
`(word, 0, "No definition")`; otherwise `0.5` per clue lemma shared with
the first sense's definition plus the per-synset contributions, with the
first sense's definition as the displayed text. -/
def scoreEntry (nlp : NLP) (cw : List String) (w : String) : RC :=
  match nlp.synsets (strLower w) with
  | [] => (w, 0, "No definition")
  | s0 :: rest =>
      let bestDef := s0.definition
      ((w, (interCard cw (defWords nlp bestDef) : ℚ) * (1/2) +
        ((s0 :: rest).map (synScore nlp cw)).sum, bestDef) : RC)

/-- Stable descending insertion used to model Python's
`sorted(ranked, key=lambda x: x[1], reverse=True)`: an element is placed
after every earlier element of score `>=` its own.  Together with
`sortDesc_sorted` and `sortDesc_filter_score` below, this pins down
exactly the behaviour of Python's stable sort. -/
def insertDesc (x : RC) : List RC → List RC
  | [] => [x]
  | y :: ys => if rcScore x ≤ rcScore y then y :: insertDesc x ys else x :: y :: ys

/-- Stable descending sort by score (model of Python
`sorted(..., key=lambda x: x[1], reverse=True)`). -/
def sortDesc (l : List RC) : List RC :=
  l.foldl (fun acc x => insertDesc x acc) []

/-- Embedding of `CrosswordSolver._wordnet_ranking` (both copies): score
every candidate against the clue lemmas, sort stably by descending
score, return the first three. -/
def wordnet_ranking (nlp : NLP) (clue : String) (ms : List String) : List RC :=
  let cw := clueWords nlp clue
  (sortDesc (ms.map (scoreEntry nlp cw))).take 3

/-- Feedback key: the code serializes `str((clue, pattern.upper()))`.
Python `repr` of a pair of strings is injective, so the dictionary key
is modelled by the pair `(clue, pattern.upper())` itself. -/
abbrev FKey := String × String

/-- The feedback dictionary, in insertion order (Python `dict`). -/
abbrev FeedbackDb := List (FKey × String)

/-- Key construction `str((clue, pattern.upper()))` shared by
`save_feedback` and `rank_by_clue`. -/
def feedbackKey (clue pattern : String) : FKey := (clue, strUpper pattern)

/-- Dictionary lookup `self.feedback_db[key]` / `key in self.feedback_db`. -/
def dbLookup : FeedbackDb → FKey → Option String
  | [], _ => none
  | kv :: rest, k => if kv.1 = k then some kv.2 else dbLookup rest k

/-- Dictionary assignment `self.feedback_db[key] = value`: overwrite in
place if the key is present, append otherwise. -/
def dbSet : FeedbackDb → FKey → String → FeedbackDb
  | [], k, v => [(k, v)]
  | kv :: rest, k, v => if kv.1 = k then (k, v) :: rest else kv :: dbSet rest k v

/-- Mutable state of a `CrosswordSolver` instance relevant to the
claims: the loaded word list, the feedback dictionary and the
`current_results` cache.  (`excluded_words` is only read by the optional
embedding scorer `_ai_ranking`, which is active only when the external
`sentence_transformers` backend loads; the embedded configuration is the
mandatory dictionary strategy, `similarity_model is None`.) -/
structure SolverState where
  word_list : List String
  feedback_db : FeedbackDb
  current_results : Option ((String × String) × List RC)
deriving DecidableEq

/-- Embedding of `CrosswordSolver.save_feedback` (identical logic in
both copies, lines 89-95 and 616-621): store the uppercased word under
`str((clue, pattern.upper()))` and persist the dictionary. -/
def save_feedback (st : SolverState) (clue pattern correct_word : String) : SolverState :=
  { st with feedback_db := dbSet st.feedback_db (feedbackKey clue pattern) (strUpper correct_word) }

/-- First sense's definition, or the given marker when the word has no
synsets (`synsets[0].definition() if synsets else marker`). -/
def primaryDef (nlp : NLP) (w marker : String) : String :=
  match nlp.synsets (strLower w) with
  | [] => marker
  | s :: _ => s.definition

namespace V1

/-- Embedding of the first copy's `CrosswordSolver.rank_by_clue`
(lines 122-136): empty clue short-circuits to the first three matches;
a feedback hit whose stored word is among the matches short-circuits to
a single candidate with score 1.0; otherwise the dictionary ranking runs
(`similarity_model is None` in the embedded configuration). -/
def rank_by_clue (nlp : NLP) (db : FeedbackDb) (clue : String) (ms : List String)
    (pattern : String) : List RC :=
  if clue = "" then (ms.take 3).map (fun m => ((m, 0, "No clue provided") : RC))
  else
    match dbLookup db (feedbackKey clue pattern) with
    | some cw =>
        if cw ∈ ms then [((cw, 1, primaryDef nlp cw "User-corrected") : RC)]
        else wordnet_ranking nlp clue ms
    | none => wordnet_ranking nlp clue ms

/-- Embedding of the first copy's `CrosswordSolver.solve` (lines 180-185). -/
def solve (nlp : NLP) (st : SolverState) (clue pattern : String) :
    SolverState × ((String × String) × List RC) :=
  let ms := find_matches st.word_list nlp.tokenize pattern clue
  let ranked := rank_by_clue nlp st.feedback_db clue ms pattern
  let res := ((clue, strUpper pattern), ranked)
  ({ st with current_results := some res }, res)

end V1

namespace V2

/-- Embedding of the second copy's `CrosswordSolver.rank_by_clue`
(lines 642-667): a feedback hit contributes `(word, 1.0, ...)` only when
the stored word matches the compiled pattern; the stored word (when the
feedback branch ran) is removed from the matches, the top two
dictionary-ranked remaining candidates are appended, and an empty result
falls back to the top three over all matches. -/
def rank_by_clue (nlp : NLP) (db : FeedbackDb) (clue : String) (ms : List String)
    (pattern : String) : List RC :=
  if clue = "" then (ms.take 3).map (fun m => ((m, 0, "No clue provided") : RC))
  else
    match dbLookup db (feedbackKey clue pattern) with
    | some correct =>
        let fb : List RC :=
          if patternMatches pattern correct then
            [((correct, 1, primaryDef nlp correct "User-provided") : RC)]
          else []
        let ranked := fb ++ (wordnet_ranking nlp clue (ms.filter (fun m => m != correct))).take 2
        if ranked.isEmpty then (wordnet_ranking nlp clue ms).take 3 else ranked
    | none =>
        let ranked := (wordnet_ranking nlp clue ms).take 2
        if ranked.isEmpty then (wordnet_ranking nlp clue ms).take 3 else ranked

/-- Embedding of the second copy's `CrosswordSolver.solve` (lines 705-709). -/
def solve (nlp : NLP) (st : SolverState) (clue pattern : String) :
    SolverState × ((String × String) × List RC) :=
  let ms := find_matches st.word_list nlp.tokenize pattern clue
  let ranked := rank_by_clue nlp st.feedback_db clue ms pattern
  let res := ((clue, strUpper pattern), ranked)
  ({ st with current_results := some res }, res)

end V2

/-- Outcome reported by the GUI correction handlers. -/
inductive CorrectionOutcome where
  | saved
  | rejectedEmpty
  | rejectedNoMatch
  | rejectedMissingInput
  | noInput
deriving DecidableEq

/-- Embedding of the first copy's `ModernCrosswordApp._submit_correction`
(lines 496-508): the correction entry is stripped and uppercased, an
empty correction is rejected, and any non-empty correction is recorded
via `save_feedback` WITHOUT being validated against the pattern. -/
def submit_correction (st : SolverState) (clueEntry patternEntry correctionEntry : String) :
    SolverState × CorrectionOutcome :=
  let correction := strUpper (pyStrip correctionEntry)
  if correction = "" then (st, .rejectedEmpty)
  else (save_feedback st clueEntry patternEntry correction, .saved)

/-- Embedding of the second copy's `ModernCrosswordApp.enter_correct_word`
(lines 890-906): clue and pattern are read from the entries (stripped,
pattern uppercased); a missing clue or pattern aborts; a dialog answer
that is `None` or empty does nothing; otherwise the stripped, uppercased
word is validated against `pattern_to_regex(pattern)` and recorded only
when it matches. -/
def enter_correct_word (st : SolverState) (clueEntry patternEntry : String)
    (dialogAnswer : Option String) : SolverState × CorrectionOutcome :=
  let clue := pyStrip clueEntry
  let pattern := strUpper (pyStrip patternEntry)
  if clue = "" ∨ pattern = "" then (st, .rejectedMissingInput)
  else
    match dialogAnswer with
    | none => (st, .noInput)
    | some w0 =>
        if w0 = "" then (st, .noInput)
        else
          let cw := strUpper (pyStrip w0)
          if patternMatches pattern cw then (save_feedback st clue pattern cw, .saved)
          else (st, .rejectedNoMatch)

/-- Modelled from the spec: the JSON persistence collaborator
(`json.dump` in `save_feedback`, `json.load` in
`load_feedback_database`) is external library code; per spec section 6
the feedback persistence contract is `load() -> mapping`,
`save(mapping)` over string keys and string values.  `json.dump` writes
the dictionary's key/value pairs in insertion order, so the persisted
record is modelled as that pair list. -/
def dump_feedback (db : FeedbackDb) : List (FKey × String) := db

/-- Modelled from the spec: `json.load` rebuilds the dictionary from the
persisted pairs in order (later duplicates would overwrite earlier
ones, as in a Python dict literal). -/
def load_feedback (pairs : List (FKey × String)) : FeedbackDb :=
  pairs.foldl (fun acc kv => dbSet acc kv.1 kv.2) []

/-- Keys of a feedback dictionary are distinct (invariant of every
Python dict, established below for every reachable store). -/
def UniqueKeys (db : FeedbackDb) : Prop := (db.map Prod.fst).Nodup

/-- Descending sortedness by score: every later candidate scores no
higher than every earlier one. -/
def SortedD (l : List RC) : Prop := l.Pairwise (fun a b => rcScore b ≤ rcScore a)

/-- The candidates of one score class, in order. -/
def scoreClass (q : ℚ) (l : List RC) : List RC :=
  l.filter (fun r => decide (rcScore r = q))

/-- Spec-side estimate for claim C3, following the claim's wording
`clamp(round(token_count * 1.5), 2, 15)` (to be compared with the
code's `estLen`, which truncates). -/
def estLenSpec (tokenCount : Nat) : ℤ :=
  max 2 (min 15 (round ((tokenCount : ℚ) * 1.5)))

/-- Concrete NLP fixture for the C4 counterexample: the clue "feline
cot" tokenizes to two words, the word COT has one synset whose gloss
shares "feline" with the clue and whose name shares "cot". -/
def nlpFelineCot : NLP :=
  ⟨fun s => if s = "feline cot" then ["feline", "cot"]
    else if s = "a feline bed" then ["a", "feline", "bed"] else [],
   fun s => s,
   fun w => if w = "cot" then [⟨"a feline bed", "cot.n.01", []⟩] else []⟩

/-- Concrete solver state for the C4 counterexample: lexicon CAT/COT and
a feedback entry for ("feline cot", "C?T"). -/
def stFelineCot : SolverState :=
  ⟨["CAT", "COT"], [(("feline cot", "C?T"), "CAT")], none⟩

theorem matchAllE_ok (f : String → String → Bool) (pattern : String) (l : List String) :
    matchAllE (fun p w => .ok (f p w)) pattern l = .ok (l.filter (fun w => f pattern w)) := by
  induction l with
  | nil => rfl
  | cons w ws ih =>
    simp only [matchAllE, ih, List.filter_cons]
    cases h : f pattern w <;> simp [h, Bind.bind, Except.bind, Pure.pure, Except.pure]

/-- Closed form of `find_matches`: a pattern filter, narrowed by the
clue-length estimate exactly when the pattern is empty or all-wildcard. -/
theorem find_matches_eq (wl : List String) (tok : String → List String)
    (pattern clue : String) :
    find_matches wl tok pattern clue =
      if allWildcard pattern then
        (wl.filter (fun w => patternMatches pattern w)).filter
          (fun w => lenNear w (estLen (tok (strLower clue)).length))
      else
        wl.filter (fun w => patternMatches pattern w) := by
  unfold find_matches find_matchesE find_matchesTry
  rw [matchAllE_ok]
  cases h : allWildcard pattern <;> simp [h, Bind.bind, Except.bind, Pure.pure, Except.pure]

/-- Every word produced by `find_matches` satisfies the compiled pattern. -/
theorem find_matches_sub {wl : List String} {tok : String → List String}
    {pattern clue w : String} (h : w ∈ find_matches wl tok pattern clue) :
    patternMatches pattern w = true := by
  rw [find_matches_eq] at h
  by_cases hb : allWildcard pattern = true
  · simp only [hb, if_pos] at h
    exact (List.mem_filter.mp (List.mem_filter.mp h).1).2
  · simp only [hb] at h
    simp only [if_neg, Bool.false_eq_true, if_false] at h
    exact (List.mem_filter.mp h).2

/-- A word matching a non-blank pattern has exactly the pattern's length. -/
theorem patternMatches_length {pattern w : String}
    (hblank : pattern.toList.all Char.isWhitespace = false)
    (h : patternMatches pattern w = true) : w.length = pattern.length := by
  unfold patternMatches pattern_to_regex at h
  rw [hblank] at h
  simp only [Bool.false_eq_true, if_false, reMatch, Bool.and_eq_true, beq_iff_eq] at h
  have hlen : w.length = (pattern.toList.map
      (fun c => if c.isAlpha then some c.toUpper else none)).length := h.1
  simpa [List.length_map] using hlen

theorem scoreClass_nil (q : ℚ) : scoreClass q [] = [] := rfl

theorem scoreClass_append (q : ℚ) (a b : List RC) :
    scoreClass q (a ++ b) = scoreClass q a ++ scoreClass q b := by
  simp [scoreClass]

theorem scoreClass_cons (q : ℚ) (y : RC) (l : List RC) :
    scoreClass q (y :: l) =
      if rcScore y = q then y :: scoreClass q l else scoreClass q l := by
  by_cases h : rcScore y = q <;> simp [scoreClass, List.filter_cons, h]

theorem scoreClass_eq_nil {q : ℚ} {l : List RC} (h : ∀ a ∈ l, rcScore a ≠ q) :
    scoreClass q l = [] := by
  simp only [scoreClass, List.filter_eq_nil_iff]
  intro a ha
  simpa using h a ha

theorem mem_insertDesc {x a : RC} {l : List RC} (h : a ∈ insertDesc x l) :
    a = x ∨ a ∈ l := by
  induction l with
  | nil => simpa [insertDesc] using h
  | cons y ys ih =>
    by_cases hc : rcScore x ≤ rcScore y
    · rw [insertDesc, if_pos hc] at h
      rcases List.mem_cons.mp h with rfl | h'
      · exact Or.inr (List.mem_cons_self _ _)
      · rcases ih h' with rfl | h''
        · exact Or.inl rfl
        · exact Or.inr (List.mem_cons_of_mem _ h'')
    · rw [insertDesc, if_neg hc] at h
      rcases List.mem_cons.mp h with rfl | h'
      · exact Or.inl rfl
      · exact Or.inr h'

theorem sortedD_insertDesc (x : RC) {l : List RC} (h : SortedD l) :
    SortedD (insertDesc x l) := by
  induction l with
  | nil => simp [insertDesc, SortedD]
  | cons y ys ih =>
    rw [SortedD, List.pairwise_cons] at h
    obtain ⟨hy, hys⟩ := h
    by_cases hc : rcScore x ≤ rcScore y
    · rw [SortedD, insertDesc, if_pos hc, List.pairwise_cons]
      refine ⟨?_, ih hys⟩
      intro b hb
      rcases mem_insertDesc hb with rfl | hb'
      · exact hc
      · exact hy b hb'
    · rw [SortedD, insertDesc, if_neg hc, List.pairwise_cons]
      refine ⟨?_, ?_⟩
      · intro b hb
        rcases List.mem_cons.mp hb with rfl | hb'
        · exact le_of_lt (not_le.mp hc)
        · exact le_trans (hy b hb') (le_of_lt (not_le.mp hc))
      · rw [List.pairwise_cons]
        exact ⟨hy, hys⟩

theorem scoreClass_insertDesc_eq {x : RC} {l : List RC} {q : ℚ}
    (hs : SortedD l) (hx : rcScore x = q) :
    scoreClass q (insertDesc x l) = scoreClass q l ++ [x] := by
  induction l with
  | nil => simp [insertDesc, scoreClass, hx]
  | cons y ys ih =>
    rw [SortedD, List.pairwise_cons] at hs
    obtain ⟨hy, hys⟩ := hs
    by_cases hc : rcScore x ≤ rcScore y
    · rw [insertDesc, if_pos hc, scoreClass_cons, scoreClass_cons]
      by_cases hyq : rcScore y = q
      · rw [if_pos hyq, if_pos hyq, ih hys, List.cons_append]
      · rw [if_neg hyq, if_neg hyq, ih hys]
    · have hylt : rcScore y < q := hx ▸ not_le.mp hc
      have hall : ∀ a ∈ y :: ys, rcScore a ≠ q := by
        intro a ha
        rcases List.mem_cons.mp ha with rfl | ha'
        · exact ne_of_lt hylt
        · exact ne_of_lt (lt_of_le_of_lt (hy a ha') (hx ▸ not_le.mp hc))
      rw [insertDesc, if_neg hc]
      rw [scoreClass_eq_nil hall]
      have : scoreClass q (x :: y :: ys) = x :: scoreClass q (y :: ys) := by
        simp [scoreClass, List.filter_cons, hx]
      rw [this, scoreClass_eq_nil hall]
      rfl

theorem scoreClass_insertDesc_ne {x : RC} {l : List RC} {q : ℚ} (hx : rcScore x ≠ q) :
    scoreClass q (insertDesc x l) = scoreClass q l := by
  induction l with
  | nil => simp [insertDesc, scoreClass, hx]
  | cons y ys ih =>
    by_cases hc : rcScore x ≤ rcScore y
    · rw [insertDesc, if_pos hc, scoreClass_cons, scoreClass_cons]
      by_cases hyq : rcScore y = q
      · rw [if_pos hyq, if_pos hyq, ih]
      · rw [if_neg hyq, if_neg hyq, ih]
    · rw [insertDesc, if_neg hc, scoreClass_cons, if_neg hx]

theorem sortDescAux_sorted (l : List RC) :
    ∀ acc, SortedD acc → SortedD (l.foldl (fun a x => insertDesc x a) acc) := by
  induction l with
  | nil => intro acc h; simpa using h
  | cons x xs ih =>
    intro acc h
    rw [List.foldl_cons]
    exact ih _ (sortedD_insertDesc x h)

theorem sortDesc_sorted (l : List RC) : SortedD (sortDesc l) :=
  sortDescAux_sorted l [] (by simp [SortedD])

theorem sortDescAux_filter (l : List RC) (q : ℚ) :
    ∀ acc, SortedD acc →
      scoreClass q (l.foldl (fun a x => insertDesc x a) acc) =
        scoreClass q acc ++ scoreClass q l := by
  induction l with
  | nil => intro acc h; simp [scoreClass_nil]
  | cons x xs ih =>
    intro acc h
    rw [List.foldl_cons, ih _ (sortedD_insertDesc x h), scoreClass_cons]
    by_cases hx : rcScore x = q
    · rw [scoreClass_insertDesc_eq h hx, if_pos hx]
      simp
    · rw [scoreClass_insertDesc_ne hx, if_neg hx]

theorem sortDesc_filter_score (l : List RC) (q : ℚ) :
    scoreClass q (sortDesc l) = scoreClass q l := by
  simpa using sortDescAux_filter l q [] (by simp [SortedD])

theorem mem_sortDescAux {a : RC} (l : List RC) :
    ∀ acc, a ∈ l.foldl (fun ac x => insertDesc x ac) acc → a ∈ acc ∨ a ∈ l := by
  induction l with
  | nil => intro acc h; exact Or.inl (by simpa using h)
  | cons x xs ih =>
    intro acc h
    rw [List.foldl_cons] at h
    rcases ih _ h with h' | h'
    · rcases mem_insertDesc h' with rfl | h''
      · exact Or.inr (List.mem_cons_self _ _)
      · exact Or.inl h''
    · exact Or.inr (List.mem_cons_of_mem _ h')

theorem mem_sortDesc {a : RC} {l : List RC} (h : a ∈ sortDesc l) : a ∈ l := by
  rcases mem_sortDescAux l [] h with h' | h'
  · simp at h'
  · exact h'

theorem scoreEntry_fst (nlp : NLP) (cw : List String) (w : String) :
    (scoreEntry nlp cw w).1 = w := by
  unfold scoreEntry
  cases nlp.synsets (strLower w) <;> simp

theorem wordnet_ranking_length_le (nlp : NLP) (clue : String) (ms : List String) :
    (wordnet_ranking nlp clue ms).length ≤ 3 := by
  unfold wordnet_ranking
  exact List.length_take_le _ _

theorem wordnet_ranking_sorted (nlp : NLP) (clue : String) (ms : List String) :
    SortedD (wordnet_ranking nlp clue ms) := by
  unfold wordnet_ranking SortedD
  exact List.Pairwise.sublist (List.take_sublist _ _) (sortDesc_sorted _)

theorem wordnet_ranking_words {nlp : NLP} {clue : String} {ms : List String} {r : RC}
    (h : r ∈ wordnet_ranking nlp clue ms) : r.1 ∈ ms := by
  unfold wordnet_ranking at h
  have h2 := mem_sortDesc ((List.take_sublist _ _).subset h)
  obtain ⟨m, hm, he⟩ := List.mem_map.mp h2
  rw [← he, scoreEntry_fst]
  exact hm

theorem wordnet_ranking_nil (nlp : NLP) (clue : String) :
    wordnet_ranking nlp clue [] = [] := rfl

theorem dbLookup_dbSet_self (db : FeedbackDb) (k : FKey) (v : String) :
    dbLookup (dbSet db k v) k = some v := by
  induction db with
  | nil => simp [dbSet, dbLookup]
  | cons kv rest ih =>
    by_cases h : kv.1 = k
    · simp [dbSet, h, dbLookup]
    · simp [dbSet, h, dbLookup, ih]

theorem dbLookup_dbSet_ne (db : FeedbackDb) (k : FKey) (v : String) {key : FKey}
    (h : key ≠ k) : dbLookup (dbSet db k v) key = dbLookup db key := by
  induction db with
  | nil => simp [dbSet, dbLookup, Ne.symm h]
  | cons kv rest ih =>
    by_cases hk : kv.1 = k
    · have : kv.1 ≠ key := by rw [hk]; exact Ne.symm h
      simp [dbSet, hk, dbLookup, Ne.symm h, this]
    · by_cases hkey : kv.1 = key
      · simp [dbSet, hk, dbLookup, hkey, h]
      · simp [dbSet, hk, dbLookup, hkey, ih]

theorem dbLookup_dbSet_isSome (db : FeedbackDb) (k : FKey) (v : String) (key : FKey)
    (h : dbLookup db key ≠ none) : dbLookup (dbSet db k v) key ≠ none := by
  by_cases hk : key = k
  · rw [hk, dbLookup_dbSet_self]
    exact Option.some_ne_none v
  · rw [dbLookup_dbSet_ne db k v hk]
    exact h

theorem keys_dbSet_subset {db : FeedbackDb} {k : FKey} {v : String} {x : FKey}
    (h : x ∈ (dbSet db k v).map Prod.fst) : x ∈ db.map Prod.fst ∨ x = k := by
  induction db with
  | nil => simp [dbSet] at h; exact Or.inr h
  | cons kv rest ih =>
    by_cases hk : kv.1 = k
    · rw [dbSet, if_pos hk, List.map_cons] at h
      rcases List.mem_cons.mp h with rfl | h'
      · exact Or.inr rfl
      · exact Or.inl (List.mem_cons_of_mem _ h')
    · rw [dbSet, if_neg hk, List.map_cons] at h
      rcases List.mem_cons.mp h with rfl | h'
      · exact Or.inl (List.mem_cons_self _ _)
      · rcases ih h' with h'' | h''
        · exact Or.inl (List.mem_cons_of_mem _ h'')
        · exact Or.inr h''

theorem uniqueKeys_nil : UniqueKeys [] := by simp [UniqueKeys]

theorem uniqueKeys_dbSet {db : FeedbackDb} (k : FKey) (v : String) (h : UniqueKeys db) :
    UniqueKeys (dbSet db k v) := by
  induction db with
  | nil => simp [dbSet, UniqueKeys]
  | cons kv rest ih =>
    rw [UniqueKeys, List.map_cons, List.nodup_cons] at h
    obtain ⟨hnotin, hrest⟩ := h
    by_cases hk : kv.1 = k
    · rw [dbSet, if_pos hk, UniqueKeys, List.map_cons, List.nodup_cons]
      exact ⟨hk ▸ hnotin, hrest⟩
    · rw [dbSet, if_neg hk, UniqueKeys, List.map_cons, List.nodup_cons]
      refine ⟨?_, ih hrest⟩
      intro hx
      rcases keys_dbSet_subset hx with h' | h'
      · exact hnotin h'
      · exact hk h'

theorem dbSet_notMem {db : FeedbackDb} {k : FKey} (v : String)
    (h : k ∉ db.map Prod.fst) : dbSet db k v = db ++ [(k, v)] := by
  induction db with
  | nil => simp [dbSet]
  | cons kv rest ih =>
    rw [List.map_cons, List.mem_cons] at h
    push_neg at h
    rw [dbSet, if_neg (fun e => h.1 e.symm), ih h.2]
    rfl

theorem load_feedback_aux (rest : List (FKey × String)) :
    ∀ acc : FeedbackDb, UniqueKeys (acc ++ rest) →
      rest.foldl (fun a kv => dbSet a kv.1 kv.2) acc = acc ++ rest := by
  induction rest with
  | nil => intro acc _; simp
  | cons kv rest ih =>
    intro acc h
    have hk : kv.1 ∉ acc.map Prod.fst := by
      intro hmem
      rw [UniqueKeys, List.map_append] at h
      have hdis := (List.nodup_append.mp h).2.2
      exact hdis hmem (by simp)
    rw [List.foldl_cons, dbSet_notMem _ hk,
      ih (acc ++ [kv]) (by simpa [List.append_assoc] using h)]
    simp

theorem uniqueKeys_load (pairs : List (FKey × String)) :
    UniqueKeys (load_feedback pairs) := by
  unfold load_feedback
  suffices h : ∀ acc : FeedbackDb, UniqueKeys acc →
      UniqueKeys (pairs.foldl (fun a kv => dbSet a kv.1 kv.2) acc) from
    h [] uniqueKeys_nil
  induction pairs with
  | nil => intro acc h; simpa using h
  | cons kv rest ih =>
    intro acc h
    rw [List.foldl_cons]
    exact ih _ (uniqueKeys_dbSet _ _ h)

theorem load_dump_feedback {db : FeedbackDb} (h : UniqueKeys db) :
    load_feedback (dump_feedback db) = db := by
  unfold load_feedback dump_feedback
  simpa using load_feedback_aux db [] (by simpa using h)

theorem toList_eq_nil_iff (s : String) : s.toList = [] ↔ s = "" := by
  constructor
  · intro h
    cases s with
    | mk data =>
      have hd : data = [] := h
      rw [hd]
  · intro h
    rw [h]
    decide

theorem length_eq_toList_length (s : String) : s.length = s.toList.length := by
  cases s
  rfl

theorem isAlpha_not_whitespace {c : Char} (h : c.isAlpha = true) :
    c.isWhitespace = false := by
  by_contra hw
  rw [Bool.not_eq_false, Char.isWhitespace] at hw
  simp only [Bool.or_eq_true, decide_eq_true_eq] at hw
  rcases hw with (((h1 | h1) | h1) | h1) <;> subst h1 <;> exact absurd h (by decide)

/-- Claim C1: for every non-empty pattern consisting only of alphabetic
and wildcard characters, with length L, every word in the sequence
returned by `find_matches` has length exactly L. -/
theorem C1_exact_length (wl : List String) (tok : String → List String)
    (pattern clue : String) (hne : pattern ≠ "")
    (hch : ∀ c ∈ pattern.toList, c.isAlpha = true ∨ c = '?') :
    ∀ w ∈ find_matches wl tok pattern clue, w.length = pattern.length := by
  intro w hw
  have hm := find_matches_sub hw
  have hlist : pattern.toList ≠ [] := fun h0 => hne ((toList_eq_nil_iff pattern).mp h0)
  have hblank : pattern.toList.all Char.isWhitespace = false := by
    rcases hl : pattern.toList with _ | ⟨c, cs⟩
    · exact absurd hl hlist
    · have hc := hch c (by rw [hl]; exact List.mem_cons_self _ _)
      have hcw : c.isWhitespace = false := by
        rcases hc with h1 | rfl
        · exact isAlpha_not_whitespace h1
        · decide
      simp [List.all_cons, hcw]
  exact patternMatches_length hblank hm

/-- Witness for C1: the pattern "C?T" over a small lexicon keeps "CAT",
whose length equals the pattern length. -/
theorem C1_witness :
    "CAT" ∈ find_matches ["CAT", "COT", "AT", "CATS"] (fun _ => []) "C?T" "pet" ∧
    ("CAT" : String).length = ("C?T" : String).length :=
  ⟨by decide,
    C1_exact_length ["CAT", "COT", "AT", "CATS"] (fun _ => []) "C?T" "pet"
      (by decide) (by decide) "CAT" (by decide)⟩

theorem patternMatches_hashhash (w : String) :
    patternMatches "##" w = true ↔ w.length = 2 ∧ w.toList.all isUpperAZ = true := by
  have hr : pattern_to_regex "##" = Rx.chars [none, none] := by decide
  rw [patternMatches, hr, reMatch]
  rw [Bool.and_eq_true, beq_iff_eq]
  constructor
  · rintro ⟨hlen, hall⟩
    have hlen2 : w.length = 2 := by simpa using hlen
    refine ⟨hlen2, ?_⟩
    have hlist : w.toList.length = 2 := by
      rw [← length_eq_toList_length]
      exact hlen2
    obtain ⟨a, b, hab⟩ := List.length_eq_two.mp hlist
    rw [hab] at hall ⊢
    simpa [posMatch] using hall
  · rintro ⟨hlen, hall⟩
    have hlist : w.toList.length = 2 := by
      rw [← length_eq_toList_length]
      exact hlen
    obtain ⟨a, b, hab⟩ := List.length_eq_two.mp hlist
    refine ⟨by simpa using hlen, ?_⟩
    rw [hab] at hall ⊢
    simpa [posMatch] using hall

/-- Claim C10: the clue-length narrowing runs exactly when the pattern
is empty or consists entirely of '?' characters; a whitespace-only
pattern compiles to the unconstrained 2-to-15 matcher and is not
narrowed, and the pattern "##" (wildcards that are not '?') is an exact
length-2 matcher and is not narrowed either. -/
theorem C10_narrowing_condition :
    (∀ pattern : String, allWildcard pattern = true ↔
        pattern = "" ∨ ∀ c ∈ pattern.toList, c = '?') ∧
    (∀ (wl : List String) (tok : String → List String) (pattern clue : String),
        allWildcard pattern = false →
        find_matches wl tok pattern clue = wl.filter (fun w => patternMatches pattern w)) ∧
    (∀ (wl : List String) (tok : String → List String) (pattern clue : String),
        allWildcard pattern = true →
        find_matches wl tok pattern clue =
          (wl.filter (fun w => patternMatches pattern w)).filter
            (fun w => lenNear w (estLen (tok (strLower clue)).length))) ∧
    (∀ (wl : List String) (tok : String → List String) (pattern clue : String),
        pattern ≠ "" → pattern.toList.all Char.isWhitespace = true →
        find_matches wl tok pattern clue = wl.filter (fun w => reMatch Rx.anyWord w)) ∧
    (∀ (wl : List String) (tok : String → List String) (clue : String),
        find_matches wl tok "##" clue = wl.filter (fun w => patternMatches "##" w)) ∧
    (∀ w : String, patternMatches "##" w = true ↔
        w.length = 2 ∧ w.toList.all isUpperAZ = true) := by
  refine ⟨?_, ?_, ?_, ?_, ?_, patternMatches_hashhash⟩
  · intro pattern
    rw [allWildcard, Bool.or_eq_true, List.isEmpty_iff, toList_eq_nil_iff, List.all_eq_true]
    constructor
    · rintro (h | h)
      · exact Or.inl h
      · refine Or.inr fun c hc => ?_
        simpa using h c hc
    · rintro (h | h)
      · exact Or.inl h
      · refine Or.inr fun c hc => ?_
        simpa using h c hc
  · intro wl tok pattern clue h
    rw [find_matches_eq, if_neg]
    rw [h]
    simp
  · intro wl tok pattern clue h
    rw [find_matches_eq, if_pos h]
  · intro wl tok pattern clue hne hws
    have hlist : pattern.toList ≠ [] := fun h0 => hne ((toList_eq_nil_iff pattern).mp h0)
    have hwild : allWildcard pattern = false := by
      rw [allWildcard, Bool.or_eq_false_iff]
      constructor
      · have h1 : ¬(pattern.toList.isEmpty = true) := by
          rw [List.isEmpty_iff, toList_eq_nil_iff]
          exact hne
        rwa [Bool.not_eq_true] at h1
      · rcases hl : pattern.toList with _ | ⟨c, cs⟩
        · exact absurd hl hlist
        · have hcw : c.isWhitespace = true := by
            rw [List.all_eq_true] at hws
            exact hws c (by rw [hl]; exact List.mem_cons_self _ _)
          have hcq : (c == '?') = false := by
            by_contra hq
            rw [Bool.not_eq_false, beq_iff_eq] at hq
            subst hq
            exact absurd hcw (by decide)
          simp [List.all_cons, hcq]
    have hrx : pattern_to_regex pattern = Rx.anyWord := by
      rw [pattern_to_regex, if_pos hws]
    rw [find_matches_eq, if_neg]
    · simp [patternMatches, hrx]
    · rw [hwild]
      simp
  · intro wl tok clue
    rw [find_matches_eq, if_neg]
    rw [show allWildcard "##" = false from by decide]
    simp

/-- Witness for C10: a whitespace-only pattern is not narrowed — with a
one-token clue (estimate 2) the 11-letter word is still returned. -/
theorem C10_witness :
    find_matches ["CAT", "ABCDEFGHIJK"] (fun _ => ["pet"]) " " "pet" =
      ["CAT", "ABCDEFGHIJK"].filter (fun w => reMatch Rx.anyWord w) :=
  C10_narrowing_condition.2.2.2.1 ["CAT", "ABCDEFGHIJK"] (fun _ => ["pet"]) " " "pet"
    (by decide) (by decide)

/-- Claim C3 counterexample: for a 5-token clue the code computes
`int(5 * 1.5) = 7` while the claim's `round(5 * 1.5) = 8`.  The
11-letter word matches the empty pattern and is within 3 of the claimed
estimate (|11 - 8| = 3), yet `find_matches` drops it (|11 - 7| = 4), so
the filter does not keep exactly the words the claim describes. -/
theorem C3_counterexample :
    find_matches ["ABCDEFGHIJK"] (fun _ => ["the", "cat", "sat", "on", "mat"]) ""
        "THE CAT SAT ON MAT" = [] ∧
    patternMatches "" "ABCDEFGHIJK" = true ∧
    ((fun _ : String => ["the", "cat", "sat", "on", "mat"])
        (strLower "THE CAT SAT ON MAT")).length = 5 ∧
    Int.natAbs ((("ABCDEFGHIJK" : String).length : ℤ) - estLenSpec 5) ≤ 3 := by
  refine ⟨by decide, by decide, by decide, ?_⟩
  have h : estLenSpec 5 = 8 := by
    rw [estLenSpec, round_eq]
    norm_num
  rw [h]
  decide

/-- Claim C3 amended: for an empty or all-wildcard pattern the filter
keeps exactly the pattern-matching words whose length is within 3 of
`clamp(floor(token_count * 1.5), 2, 15)` — truncation, not rounding. -/
theorem C3_vague_filter (wl : List String) (tok : String → List String)
    (pattern clue : String) (h : allWildcard pattern = true) :
    find_matches wl tok pattern clue =
      wl.filter (fun w => patternMatches pattern w &&
        lenNear w (estLen (tok (strLower clue)).length)) := by
  rw [find_matches_eq, if_pos h, List.filter_filter]
  exact List.filter_congr (fun w _ => by rw [Bool.and_comm])

/-- Witness for C3 (amended): a one-token clue gives estimate 2, so only
the 3-letter word survives the narrowing. -/
theorem C3_witness :
    find_matches ["CAT", "HOUSES", "ABCDEFGHIJK"] (fun _ => ["feline"]) "" "Feline" =
      ["CAT"] :=
  (C3_vague_filter ["CAT", "HOUSES", "ABCDEFGHIJK"] (fun _ => ["feline"]) "" "Feline"
    (by decide)).trans (by decide)

/-- Claim C7: when the body of `find_matches` fails, the `except:`
handler returns the first 100 lexicon words in lexicon order — a
bounded list, non-empty whenever the lexicon is non-empty. -/
theorem C7_fallback (wl : List String)
    (matchE : String → String → Except String Bool)
    (tokenizeE : String → Except String (List String))
    (pattern clue e : String)
    (h : find_matchesTry wl matchE tokenizeE pattern clue = .error e) :
    find_matchesE wl matchE tokenizeE pattern clue = wl.take 100 ∧
    (find_matchesE wl matchE tokenizeE pattern clue).length ≤ 100 ∧
    (wl ≠ [] → find_matchesE wl matchE tokenizeE pattern clue ≠ []) := by
  have he : find_matchesE wl matchE tokenizeE pattern clue = wl.take 100 := by
    rw [find_matchesE, h]
  refine ⟨he, ?_, ?_⟩
  · rw [he]
    exact List.length_take_le _ _
  · intro hne
    rcases wl with _ | ⟨a, as⟩
    · exact absurd rfl hne
    · rw [he]
      simp

/-- Witness for C7: a failing tokenizer (the one genuinely fallible
primitive, e.g. NLTK data missing) on an empty pattern triggers the
fallback. -/
theorem C7_witness :
    find_matchesE ["ALPHA", "BETA"] (fun p w => .ok (patternMatches p w))
        (fun _ => .error "LookupError") "" "some clue" = ["ALPHA", "BETA"].take 100 ∧
    find_matchesE ["ALPHA", "BETA"] (fun p w => .ok (patternMatches p w))
        (fun _ => .error "LookupError") "" "some clue" ≠ [] := by
  have h := C7_fallback ["ALPHA", "BETA"] (fun p w => .ok (patternMatches p w))
    (fun _ => .error "LookupError") "" "some clue" "LookupError" (by rfl)
  exact ⟨h.1, h.2.2 (by decide)⟩

theorem V1_rank_feedback (nlp : NLP) (db : FeedbackDb) (clue : String) (ms : List String)
    (pattern cw : String) (hclue : clue ≠ "")
    (hdb : dbLookup db (feedbackKey clue pattern) = some cw) (hmem : cw ∈ ms) :
    V1.rank_by_clue nlp db clue ms pattern =
      [((cw, 1, primaryDef nlp cw "User-corrected") : RC)] := by
  simp only [V1.rank_by_clue, if_neg hclue, hdb]
  rw [if_pos hmem]

theorem V1_rank_nofeedback (nlp : NLP) (db : FeedbackDb) (clue : String) (ms : List String)
    (pattern cw : String) (hclue : clue ≠ "")
    (hdb : dbLookup db (feedbackKey clue pattern) = some cw) (hmem : cw ∉ ms) :
    V1.rank_by_clue nlp db clue ms pattern = wordnet_ranking nlp clue ms := by
  simp only [V1.rank_by_clue, if_neg hclue, hdb]
  rw [if_neg hmem]

theorem V2_rank_feedback (nlp : NLP) (db : FeedbackDb) (clue : String) (ms : List String)
    (pattern cw : String) (hclue : clue ≠ "")
    (hdb : dbLookup db (feedbackKey clue pattern) = some cw)
    (hpm : patternMatches pattern cw = true) :
    V2.rank_by_clue nlp db clue ms pattern =
      ((cw, 1, primaryDef nlp cw "User-provided") : RC) ::
        (wordnet_ranking nlp clue (ms.filter (fun m => m != cw))).take 2 := by
  simp only [V2.rank_by_clue, if_neg hclue, hdb, hpm, if_pos]
  simp [List.isEmpty_iff]

theorem take_two_eq_of_isEmpty_branch (l : List RC) :
    (if ((l.take 2).isEmpty) then l.take 3 else l.take 2) = l.take 2 := by
  by_cases h : (l.take 2).isEmpty
  · rw [if_pos h]
    rw [List.isEmpty_iff] at h
    have hl : l = [] := by
      rcases l with _ | ⟨a, as⟩
      · rfl
      · simp at h
    rw [hl]
    rfl
  · rw [if_neg h]

theorem V2_rank_stale (nlp : NLP) (db : FeedbackDb) (clue : String) (ms : List String)
    (pattern cw : String) (hclue : clue ≠ "")
    (hdb : dbLookup db (feedbackKey clue pattern) = some cw)
    (hpm : patternMatches pattern cw = false) (hmem : cw ∉ ms) :
    V2.rank_by_clue nlp db clue ms pattern = (wordnet_ranking nlp clue ms).take 2 := by
  have hfilter : ms.filter (fun m => m != cw) = ms := by
    rw [List.filter_eq_self]
    intro a ha
    rw [bne_iff_ne]
    intro he
    exact hmem (he ▸ ha)
  simp only [V2.rank_by_clue, if_neg hclue, hdb, hpm]
  simp only [Bool.false_eq_true, if_false, List.nil_append, hfilter]
  exact take_two_eq_of_isEmpty_branch _

theorem V2_rank_none (nlp : NLP) (db : FeedbackDb) (clue : String) (ms : List String)
    (pattern : String) (hclue : clue ≠ "")
    (hdb : dbLookup db (feedbackKey clue pattern) = none) :
    V2.rank_by_clue nlp db clue ms pattern = (wordnet_ranking nlp clue ms).take 2 := by
  simp only [V2.rank_by_clue, if_neg hclue, hdb]
  exact take_two_eq_of_isEmpty_branch _

theorem V1_solve_ranked (nlp : NLP) (st : SolverState) (clue pattern : String) :
    (V1.solve nlp st clue pattern).2.2 =
      V1.rank_by_clue nlp st.feedback_db clue
        (find_matches st.word_list nlp.tokenize pattern clue) pattern := rfl

theorem V2_solve_ranked (nlp : NLP) (st : SolverState) (clue pattern : String) :
    (V2.solve nlp st clue pattern).2.2 =
      V2.rank_by_clue nlp st.feedback_db clue
        (find_matches st.word_list nlp.tokenize pattern clue) pattern := rfl

/-- Claim C2 amended: when the feedback store holds the key
(clue, uppercased pattern) and the stored word is among the filtered
candidates, the FIRST solver's solve returns exactly one
RankedCandidate (stored word, score 1.0, primary sense definition or
"User-corrected"); the SECOND solver's solve returns the stored word
first with score 1.0 and its primary sense definition or
"User-provided", followed by up to two further candidates obtained by
normally scoring the remaining filtered candidates. -/
theorem C2_feedback_path (nlp : NLP) (st : SolverState) (clue pattern cw : String)
    (hclue : clue ≠ "")
    (hdb : dbLookup st.feedback_db (feedbackKey clue pattern) = some cw)
    (hmem : cw ∈ find_matches st.word_list nlp.tokenize pattern clue) :
    (V1.solve nlp st clue pattern).2.2 =
      [((cw, 1, primaryDef nlp cw "User-corrected") : RC)] ∧
    (V2.solve nlp st clue pattern).2.2 =
      ((cw, 1, primaryDef nlp cw "User-provided") : RC) ::
        (wordnet_ranking nlp clue
          ((find_matches st.word_list nlp.tokenize pattern clue).filter
            (fun m => m != cw))).take 2 := by
  have hpm : patternMatches pattern cw = true := find_matches_sub hmem
  constructor
  · rw [V1_solve_ranked]
    exact V1_rank_feedback nlp st.feedback_db clue _ pattern cw hclue hdb hmem
  · rw [V2_solve_ranked]
    exact V2_rank_feedback nlp st.feedback_db clue _ pattern cw hclue hdb hpm

/-- Claim C2 counterexample: in the second solver, with feedback
("feline pet", "C?T") -> "CAT" and "CAT" among the filtered candidates,
the solve result holds TWO candidates (["CAT", "COT"]), not exactly
one. -/
theorem C2_counterexample :
    dbLookup [(("feline pet", "C?T"), "CAT")] (feedbackKey "feline pet" "C?T") =
      some "CAT" ∧
    "CAT" ∈ find_matches ["CAT", "COT"] (fun _ => ["feline", "pet"]) "C?T" "feline pet" ∧
    ((V2.solve ⟨fun _ => ["feline", "pet"], fun s => s, fun _ => []⟩
        ⟨["CAT", "COT"], [(("feline pet", "C?T"), "CAT")], none⟩
        "feline pet" "C?T").2.2).map (fun r => r.1) = ["CAT", "COT"] ∧
    ((V2.solve ⟨fun _ => ["feline", "pet"], fun s => s, fun _ => []⟩
        ⟨["CAT", "COT"], [(("feline pet", "C?T"), "CAT")], none⟩
        "feline pet" "C?T").2.2).length = 2 := by
  refine ⟨by decide, by decide, by decide, by decide⟩

/-- Witness for C2 (amended): the first solver short-circuits to the
single stored candidate. -/
theorem C2_witness :
    (V1.solve (⟨fun _ => ["feline", "pet"], fun s => s, fun _ => []⟩ : NLP)
        ⟨["CAT", "COT"], [(("feline pet", "C?T"), "CAT")], none⟩
        "feline pet" "C?T").2.2 = [(("CAT", 1, "User-corrected") : RC)] :=
  (C2_feedback_path ⟨fun _ => ["feline", "pet"], fun s => s, fun _ => []⟩
    ⟨["CAT", "COT"], [(("feline pet", "C?T"), "CAT")], none⟩
    "feline pet" "C?T" "CAT" (by decide) (by decide) (by decide)).1

/-- Claim C5: a stored feedback word that does not satisfy the supplied
pattern is never returned by either solver (in particular not via the
score-1.0 fast path); for a non-empty clue the result is produced by
the normal dictionary scoring of the filtered candidates. -/
theorem C5_stale_feedback (nlp : NLP) (st : SolverState) (clue pattern w : String)
    (hdb : dbLookup st.feedback_db (feedbackKey clue pattern) = some w)
    (hno : patternMatches pattern w = false) :
    (∀ r ∈ (V1.solve nlp st clue pattern).2.2, r.1 ≠ w) ∧
    (∀ r ∈ (V2.solve nlp st clue pattern).2.2, r.1 ≠ w) ∧
    (clue ≠ "" →
      (V1.solve nlp st clue pattern).2.2 =
        wordnet_ranking nlp clue (find_matches st.word_list nlp.tokenize pattern clue) ∧
      (V2.solve nlp st clue pattern).2.2 =
        (wordnet_ranking nlp clue
          (find_matches st.word_list nlp.tokenize pattern clue)).take 2) := by
  have hnm : w ∉ find_matches st.word_list nlp.tokenize pattern clue := by
    intro hmem
    rw [find_matches_sub hmem] at hno
    exact absurd hno (by decide)
  by_cases hclue : clue = ""
  · subst hclue
    have hv1 : (V1.solve nlp st "" pattern).2.2 =
        ((find_matches st.word_list nlp.tokenize pattern "").take 3).map
          (fun m => ((m, 0, "No clue provided") : RC)) := by
      rw [V1_solve_ranked, V1.rank_by_clue, if_pos rfl]
    have hv2 : (V2.solve nlp st "" pattern).2.2 =
        ((find_matches st.word_list nlp.tokenize pattern "").take 3).map
          (fun m => ((m, 0, "No clue provided") : RC)) := by
      rw [V2_solve_ranked, V2.rank_by_clue, if_pos rfl]
    refine ⟨?_, ?_, fun hc => absurd rfl hc⟩
    · intro r hr
      rw [hv1] at hr
      obtain ⟨m, hm, he⟩ := List.mem_map.mp hr
      have hfst : r.1 = m := by rw [← he]
      rw [hfst]
      intro hcontra
      exact hnm (hcontra ▸ List.take_subset _ _ hm)
    · intro r hr
      rw [hv2] at hr
      obtain ⟨m, hm, he⟩ := List.mem_map.mp hr
      have hfst : r.1 = m := by rw [← he]
      rw [hfst]
      intro hcontra
      exact hnm (hcontra ▸ List.take_subset _ _ hm)
  · have hv1 : (V1.solve nlp st clue pattern).2.2 =
        wordnet_ranking nlp clue (find_matches st.word_list nlp.tokenize pattern clue) := by
      rw [V1_solve_ranked]
      exact V1_rank_nofeedback nlp st.feedback_db clue _ pattern w hclue hdb hnm
    have hv2 : (V2.solve nlp st clue pattern).2.2 =
        (wordnet_ranking nlp clue
          (find_matches st.word_list nlp.tokenize pattern clue)).take 2 := by
      rw [V2_solve_ranked]
      exact V2_rank_stale nlp st.feedback_db clue _ pattern w hclue hdb hno hnm
    refine ⟨?_, ?_, fun _ => ⟨hv1, hv2⟩⟩
    · intro r hr
      rw [hv1] at hr
      intro hcontra
      exact hnm (hcontra ▸ wordnet_ranking_words hr)
    · intro r hr
      rw [hv2] at hr
      intro hcontra
      exact hnm (hcontra ▸ wordnet_ranking_words (List.take_subset _ _ hr))

/-- Witness for C5: stale feedback "DOG" under pattern "C?T" is skipped
and the second solver scores the remaining candidates normally. -/
theorem C5_witness :
    (V2.solve (⟨fun _ => ["feline", "pet"], fun s => s, fun _ => []⟩ : NLP)
        ⟨["CAT", "COT"], [(("feline pet", "C?T"), "DOG")], none⟩
        "feline pet" "C?T").2.2 =
      (wordnet_ranking (⟨fun _ => ["feline", "pet"], fun s => s, fun _ => []⟩ : NLP)
        "feline pet"
        (find_matches ["CAT", "COT"] (fun _ => ["feline", "pet"]) "C?T" "feline pet")).take 2 :=
  ((C5_stale_feedback ⟨fun _ => ["feline", "pet"], fun s => s, fun _ => []⟩
    ⟨["CAT", "COT"], [(("feline pet", "C?T"), "DOG")], none⟩
    "feline pet" "C?T" "DOG" (by decide) (by decide)).2.2 (by decide)).2

theorem sortedD_of_const_score {l : List RC} (q : ℚ) (h : ∀ r ∈ l, rcScore r = q) :
    SortedD l := by
  induction l with
  | nil => simp [SortedD]
  | cons x xs ih =>
    rw [SortedD, List.pairwise_cons]
    refine ⟨fun b hb => ?_, ih fun r hr => h r (List.mem_cons_of_mem _ hr)⟩
    rw [h b (List.mem_cons_of_mem _ hb), h x (List.mem_cons_self _ _)]

theorem sortedD_noclue (ms : List String) :
    SortedD ((ms.take 3).map (fun m => ((m, 0, "No clue provided") : RC))) := by
  apply sortedD_of_const_score 0
  intro r hr
  obtain ⟨m, _, he⟩ := List.mem_map.mp hr
  rw [← he]
  rfl

theorem sortedD_take (n : Nat) {l : List RC} (h : SortedD l) : SortedD (l.take n) :=
  List.Pairwise.sublist (List.take_sublist _ _) h

theorem V1_solve_bounded_sorted (nlp : NLP) (st : SolverState) (clue pattern : String) :
    ((V1.solve nlp st clue pattern).2.2).length ≤ 3 ∧
      SortedD ((V1.solve nlp st clue pattern).2.2) := by
  rw [V1_solve_ranked]
  by_cases hclue : clue = ""
  · simp only [V1.rank_by_clue, if_pos hclue]
    refine ⟨?_, sortedD_noclue _⟩
    rw [List.length_map, List.length_take]
    exact min_le_left _ _
  · rcases hdb : dbLookup st.feedback_db (feedbackKey clue pattern) with _ | cw
    · simp only [V1.rank_by_clue, if_neg hclue, hdb]
      exact ⟨wordnet_ranking_length_le _ _ _, wordnet_ranking_sorted _ _ _⟩
    · by_cases hmem : cw ∈ find_matches st.word_list nlp.tokenize pattern clue
      · simp only [V1.rank_by_clue, if_neg hclue, hdb]
        rw [if_pos hmem]
        exact ⟨by simp, by simp [SortedD]⟩
      · simp only [V1.rank_by_clue, if_neg hclue, hdb]
        rw [if_neg hmem]
        exact ⟨wordnet_ranking_length_le _ _ _, wordnet_ranking_sorted _ _ _⟩

theorem V2_solve_bounded (nlp : NLP) (st : SolverState) (clue pattern : String) :
    ((V2.solve nlp st clue pattern).2.2).length ≤ 3 := by
  rw [V2_solve_ranked]
  by_cases hclue : clue = ""
  · simp only [V2.rank_by_clue, if_pos hclue]
    rw [List.length_map, List.length_take]
    exact min_le_left _ _
  · rcases hdb : dbLookup st.feedback_db (feedbackKey clue pattern) with _ | cw
    · simp only [V2.rank_by_clue, if_neg hclue, hdb]
      split
      · rw [List.length_take]
        exact min_le_left _ _
      · exact le_trans (List.length_take_le _ _) (by norm_num)
    · simp only [V2.rank_by_clue, if_neg hclue, hdb]
      by_cases hpm : patternMatches pattern cw = true
      · rw [if_pos hpm, List.singleton_append]
        simp only [List.isEmpty_cons, Bool.false_eq_true, if_false, List.length_cons]
        have h2 := List.length_take_le 2 (wordnet_ranking nlp clue
          ((find_matches st.word_list nlp.tokenize pattern clue).filter (fun m => m != cw)))
        omega
      · rw [if_neg hpm, List.nil_append]
        by_cases he : (List.take 2 (wordnet_ranking nlp clue
            ((find_matches st.word_list nlp.tokenize pattern clue).filter
              (fun m => m != cw)))).isEmpty = true
        · rw [if_pos he]
          exact le_trans (List.length_take_le _ _) (by norm_num)
        · rw [if_neg he]
          exact le_trans (List.length_take_le _ _) (by norm_num)

theorem V2_solve_sorted_none (nlp : NLP) (st : SolverState) (clue pattern : String)
    (hdb : dbLookup st.feedback_db (feedbackKey clue pattern) = none) :
    SortedD ((V2.solve nlp st clue pattern).2.2) := by
  rw [V2_solve_ranked]
  by_cases hclue : clue = ""
  · simp only [V2.rank_by_clue, if_pos hclue]
    exact sortedD_noclue _
  · rw [V2_rank_none nlp st.feedback_db clue _ pattern hclue hdb]
    exact sortedD_take 2 (wordnet_ranking_sorted _ _ _)

theorem wordnet_ranking_stable (nlp : NLP) (clue : String) (ms : List String) (q : ℚ) :
    scoreClass q (ms.map (scoreEntry nlp (clueWords nlp clue))) =
      scoreClass q (wordnet_ranking nlp clue ms) ++
        scoreClass q ((sortDesc (ms.map (scoreEntry nlp (clueWords nlp clue)))).drop 3) := by
  simp only [wordnet_ranking]
  rw [← sortDesc_filter_score (ms.map (scoreEntry nlp (clueWords nlp clue))) q]
  conv_lhs =>
    rw [← List.take_append_drop 3 (sortDesc (ms.map (scoreEntry nlp (clueWords nlp clue))))]
  rw [scoreClass_append]

/-- Claim C4 amended: every solve result has at most 3 candidates.  The
first solver's result is always sorted by non-increasing score, and the
dictionary ranking is additionally stable: each score class of the
ranked output is the prefix, in original filter order, of that score
class among the scored candidates.  The second solver's result is
sorted whenever no feedback entry exists for the key, but on its
feedback path the stored word is placed first with score 1.0 followed
by up to two normally scored candidates whose scores may exceed 1.0
(see the counterexample). -/
theorem C4_bounded_sorted_stable :
    (∀ (nlp : NLP) (st : SolverState) (clue pattern : String),
        ((V1.solve nlp st clue pattern).2.2).length ≤ 3 ∧
        SortedD ((V1.solve nlp st clue pattern).2.2)) ∧
    (∀ (nlp : NLP) (st : SolverState) (clue pattern : String),
        ((V2.solve nlp st clue pattern).2.2).length ≤ 3) ∧
    (∀ (nlp : NLP) (st : SolverState) (clue pattern : String),
        dbLookup st.feedback_db (feedbackKey clue pattern) = none →
        SortedD ((V2.solve nlp st clue pattern).2.2)) ∧
    (∀ (nlp : NLP) (clue : String) (ms : List String),
        SortedD (wordnet_ranking nlp clue ms) ∧
        (wordnet_ranking nlp clue ms).length ≤ 3) ∧
    (∀ (nlp : NLP) (clue : String) (ms : List String) (q : ℚ),
        scoreClass q (ms.map (scoreEntry nlp (clueWords nlp clue))) =
          scoreClass q (wordnet_ranking nlp clue ms) ++
            scoreClass q ((sortDesc (ms.map (scoreEntry nlp (clueWords nlp clue)))).drop 3)) :=
  ⟨V1_solve_bounded_sorted, V2_solve_bounded,
    fun nlp st clue pattern h => V2_solve_sorted_none nlp st clue pattern h,
    fun nlp clue ms => ⟨wordnet_ranking_sorted nlp clue ms, wordnet_ranking_length_le nlp clue ms⟩,
    wordnet_ranking_stable⟩

/-- Claim C4 counterexample: on the second solver's feedback path the
result is NOT sorted by non-increasing score — the stored word comes
first with score 1.0 and is followed by a candidate scoring 6/5. -/
theorem C4_counterexample :
    dbLookup stFelineCot.feedback_db (feedbackKey "feline cot" "C?T") = some "CAT" ∧
    ((V2.solve nlpFelineCot stFelineCot "feline cot" "C?T").2.2).map (fun r => r.1) =
      ["CAT", "COT"] ∧
    rcScore (((V2.solve nlpFelineCot stFelineCot "feline cot" "C?T").2.2).getD 0
      (("", 0, "") : RC)) = 1 ∧
    rcScore (((V2.solve nlpFelineCot stFelineCot "feline cot" "C?T").2.2).getD 1
      (("", 0, "") : RC)) = 6/5 ∧
    ¬ SortedD ((V2.solve nlpFelineCot stFelineCot "feline cot" "C?T").2.2) := by
  have hres : (V2.solve nlpFelineCot stFelineCot "feline cot" "C?T").2.2 =
      [(("CAT", 1, "User-provided") : RC),
       scoreEntry nlpFelineCot (clueWords nlpFelineCot "feline cot") "COT"] := by rfl
  have hsyn : nlpFelineCot.synsets (strLower "COT") =
      [⟨"a feline bed", "cot.n.01", []⟩] := by rfl
  have h1 : interCard (clueWords nlpFelineCot "feline cot")
      (defWords nlpFelineCot "a feline bed") = 1 := by decide
  have h2 : interCard (clueWords nlpFelineCot "feline cot")
      (nameWords nlpFelineCot "cot.n.01") = 1 := by decide
  have hscore : rcScore (scoreEntry nlpFelineCot (clueWords nlpFelineCot "feline cot")
      "COT") = 6/5 := by
    simp only [scoreEntry, hsyn, synScore, h1, h2, List.map_cons, List.map_nil,
      List.sum_cons, List.sum_nil, rcScore]
    norm_num
  refine ⟨by decide, ?_, ?_, ?_, ?_⟩
  · rw [hres]
    simp [scoreEntry_fst]
  · rw [hres]
    rfl
  · rw [hres]
    exact hscore
  · intro h
    rw [hres, SortedD, List.pairwise_cons] at h
    have hle := h.1 _ (List.mem_cons_self _ _)
    rw [hscore] at hle
    have h1le : rcScore (("CAT", 1, "User-provided") : RC) = 1 := rfl
    rw [h1le] at hle
    norm_num at hle

/-- Witness for C4 (amended): with no feedback entry the second
solver's result is sorted. -/
theorem C4_witness :
    SortedD ((V2.solve (⟨fun _ => [], fun s => s, fun _ => []⟩ : NLP)
      ⟨["CAT"], [], none⟩ "some clue" "C?T").2.2) :=
  C4_bounded_sorted_stable.2.2.1 ⟨fun _ => [], fun s => s, fun _ => []⟩
    ⟨["CAT"], [], none⟩ "some clue" "C?T" (by decide)

/-- Claim C6: the second copy's correction handler (`enter_correct_word`)
validates the word against the compiled pattern, rejects a mismatch with
a user-facing message, and leaves the feedback store unchanged; the
first copy's handler (`_submit_correction`) performs NO validation and
records any non-empty correction — at the claim's own example
(pattern "C?T", word "DOG") it stores the binding anyway, contradicting
the spec and the second copy. -/
theorem C6_correction_validation :
    (∀ (st : SolverState) (clueEntry patternEntry w0 : String),
        pyStrip clueEntry ≠ "" → strUpper (pyStrip patternEntry) ≠ "" → w0 ≠ "" →
        patternMatches (strUpper (pyStrip patternEntry)) (strUpper (pyStrip w0)) = false →
        enter_correct_word st clueEntry patternEntry (some w0) = (st, .rejectedNoMatch)) ∧
    patternMatches "C?T" "DOG" = false ∧
    submit_correction ⟨["CAT"], [], none⟩ "Feline pet" "C?T" "DOG" =
      (⟨["CAT"], [(("Feline pet", "C?T"), "DOG")], none⟩, .saved) := by
  refine ⟨?_, by decide, by decide⟩
  intro st clueEntry patternEntry w0 hc hp hw hpm
  simp only [enter_correct_word]
  rw [if_neg (by push_neg; exact ⟨hc, hp⟩)]
  rw [if_neg hw]
  rw [if_neg (by rw [hpm]; exact fun h => absurd h (by decide))]

/-- Witness for C6: the validating handler rejects "DOG" against "C?T"
and leaves the state unchanged. -/
theorem C6_witness :
    enter_correct_word ⟨["CAT"], [], none⟩ "Feline pet" "C?T" (some "DOG") =
      (⟨["CAT"], [], none⟩, .rejectedNoMatch) :=
  C6_correction_validation.1 ⟨["CAT"], [], none⟩ "Feline pet" "C?T" "DOG"
    (by decide) (by decide) (by decide) (by decide)

/-- Claim C8: every solver operation leaves the feedback mapping
unchanged or adds/overwrites exactly one key binding with the word
uppercased; a write preserves every existing key (lookup on the written
key yields the new word, lookup on any other key is unchanged, and a
present key stays present), so the key set never shrinks. -/
theorem C8_store_growth :
    (∀ (nlp : NLP) (st : SolverState) (clue pattern : String),
        ((V1.solve nlp st clue pattern).1).feedback_db = st.feedback_db) ∧
    (∀ (nlp : NLP) (st : SolverState) (clue pattern : String),
        ((V2.solve nlp st clue pattern).1).feedback_db = st.feedback_db) ∧
    (∀ (st : SolverState) (clue pattern w : String),
        (save_feedback st clue pattern w).feedback_db =
          dbSet st.feedback_db (feedbackKey clue pattern) (strUpper w)) ∧
    (∀ (st : SolverState) (c p w : String),
        ((submit_correction st c p w).1).feedback_db = st.feedback_db ∨
        ∃ k v, ((submit_correction st c p w).1).feedback_db =
          dbSet st.feedback_db k (strUpper v)) ∧
    (∀ (st : SolverState) (c p : String) (i : Option String),
        ((enter_correct_word st c p i).1).feedback_db = st.feedback_db ∨
        ∃ k v, ((enter_correct_word st c p i).1).feedback_db =
          dbSet st.feedback_db k (strUpper v)) ∧
    (∀ (db : FeedbackDb) (k : FKey) (v : String),
        dbLookup (dbSet db k v) k = some v) ∧
    (∀ (db : FeedbackDb) (k : FKey) (v : String) (key : FKey), key ≠ k →
        dbLookup (dbSet db k v) key = dbLookup db key) ∧
    (∀ (db : FeedbackDb) (k : FKey) (v : String) (key : FKey),
        dbLookup db key ≠ none → dbLookup (dbSet db k v) key ≠ none) := by
  refine ⟨fun _ _ _ _ => rfl, fun _ _ _ _ => rfl, fun _ _ _ _ => rfl, ?_, ?_,
    dbLookup_dbSet_self, fun db k v key h => dbLookup_dbSet_ne db k v h,
    dbLookup_dbSet_isSome⟩
  · intro st c p w
    by_cases h : strUpper (pyStrip w) = ""
    · left
      simp only [submit_correction, if_pos h]
    · right
      refine ⟨feedbackKey c p, strUpper (pyStrip w), ?_⟩
      simp only [submit_correction, if_neg h]
      rfl
  · intro st c p i
    rcases i with _ | w0
    · left
      simp only [enter_correct_word]
      by_cases h1 : pyStrip c = "" ∨ strUpper (pyStrip p) = ""
      · rw [if_pos h1]
      · rw [if_neg h1]
    · simp only [enter_correct_word]
      by_cases h1 : pyStrip c = "" ∨ strUpper (pyStrip p) = ""
      · left
        rw [if_pos h1]
      · rw [if_neg h1]
        by_cases h2 : w0 = ""
        · left
          rw [if_pos h2]
        · rw [if_neg h2]
          by_cases h3 : patternMatches (strUpper (pyStrip p)) (strUpper (pyStrip w0)) = true
          · right
            rw [if_pos h3]
            exact ⟨feedbackKey (pyStrip c) (strUpper (pyStrip p)), strUpper (pyStrip w0), rfl⟩
          · left
            rw [if_neg h3]

/-- Witness for C8: a write keeps an existing unrelated key intact. -/
theorem C8_witness :
    dbLookup (dbSet [(("a", "B"), "X")] ("c", "D") "Y") ("a", "B") = some "X" :=
  (C8_store_growth.2.2.2.2.2.2.1 [(("a", "B"), "X")] ("c", "D") "Y" ("a", "B")
    (by decide)).trans (by decide)

/-- Claim C9: the feedback store has unique keys in every reachable
state (empty store, loaded store, and after every record), and
persisting then reloading such a mapping yields the identical mapping. -/
theorem C9_roundtrip :
    UniqueKeys ([] : FeedbackDb) ∧
    (∀ (db : FeedbackDb) (k : FKey) (v : String), UniqueKeys db →
        UniqueKeys (dbSet db k v)) ∧
    (∀ pairs : List (FKey × String), UniqueKeys (load_feedback pairs)) ∧
    (∀ (st : SolverState) (clue pattern w : String), UniqueKeys st.feedback_db →
        UniqueKeys ((save_feedback st clue pattern w).feedback_db)) ∧
    (∀ db : FeedbackDb, UniqueKeys db → load_feedback (dump_feedback db) = db) :=
  ⟨uniqueKeys_nil, fun _ k v h => uniqueKeys_dbSet k v h, uniqueKeys_load,
    fun _ _ _ _ h => uniqueKeys_dbSet _ _ h,
    fun _ h => load_dump_feedback h⟩

/-- Witness for C9: a one-entry store round-trips unchanged. -/
theorem C9_witness :
    load_feedback (dump_feedback [(("Feline pet", "C?T"), "CAT")]) =
      [(("Feline pet", "C?T"), "CAT")] :=
  C9_roundtrip.2.2.2.2 [(("Feline pet", "C?T"), "CAT")] (by simp [UniqueKeys])

end ClueCortex

